import Mathlib

/-!
# Verification of the BQSKit LEAP synthesis pass and standard-workflow glue

This development gives a shallow embedding of the code in
`bqskit/passes/synthesis/leap.py` and `bqskit/compiler/compile.py` and proves
properties of it.  Python `float` distances are modelled as rationals `ℚ`,
Python `int` layer counters as integers `ℤ`.  Circuits are abstract: the LEAP
search is parameterised over an opaque circuit type together with oracles for
the cost function (`CostFunctionGenerator.calc_cost`) and for the composite
"generate successors, then instantiate each" step, both of which are external
numeric collaborators of the pass.
-/

/-- `LEAPSynthesisPass.check_new_best` (leap.py lines 300-329).  Arguments
mirror the method: `success_threshold` is `self.success_threshold`. -/
def checkNewBest (success_threshold : ℚ) (layer : ℤ) (dist : ℚ)
    (best_layer : ℤ) (best_dist : ℚ) : Bool :=
  let better_layer :=
    decide (dist < best_dist) &&
      (decide (best_dist ≥ success_threshold) || decide (layer ≤ best_layer))
  let better_dist_and_layer :=
    decide (dist < success_threshold) && decide (layer < best_layer)
  better_layer || better_dist_and_layer

/-- Modelled from the spec: `scipy.stats.linregress` is an external
collaborator (the spec treats regression abstractly: "fit a linear regression
`dist ≈ m·layer + b`"; "If regression returns NaN (insufficient data or zero
variance), do not freeze").  Over `ℚ` the least-squares slope is
`Σ(x-x̄)(y-ȳ) / Σ(x-x̄)²` and the intercept `ȳ - m·x̄`; the NaN outcomes of the
float computation (empty input, a single point, or zero variance in `x`) are
exactly the cases where the denominator vanishes, modelled as `none`. -/
def linregress (xs ys : List ℚ) : Option (ℚ × ℚ) :=
  let n : ℚ := (xs.length : ℚ)
  if n = 0 then none
  else
    let xm := xs.sum / n
    let ym := ys.sum / n
    let ssxm := (xs.map (fun x => (x - xm) * (x - xm))).sum
    let ssxym := ((xs.zip ys).map (fun p => (p.1 - xm) * (p.2 - ym))).sum
    if ssxm = 0 then none
    else
      let m := ssxym / ssxm
      some (m, ym - m * xm)

/-- `LEAPSynthesisPass.check_leap_condition` (leap.py lines 331-378).  The
Python method mutates `best_layers`/`best_dists` in place by appending
`new_layer`/`best_dist` (after the regression is computed and before the NaN
test); here the updated lists are returned alongside the boolean result.
`min_prefix_size` is `self.min_prefix_size`. -/
def checkLeapCondition (min_prefix_size : ℤ) (new_layer : ℤ) (best_dist : ℚ)
    (best_layers : List ℤ) (best_dists : List ℚ) (last_prefix_layer : ℤ) :
    Bool × List ℤ × List ℚ :=
  let reg := linregress (best_layers.map (fun l => (l : ℚ))) best_dists
  let best_layers' := best_layers ++ [new_layer]
  let best_dists' := best_dists ++ [best_dist]
  match reg with
  | none => (false, best_layers', best_dists')
  | some mb =>
      let predicted_best := mb.1 * (new_layer : ℚ) + mb.2
      let delta := predicted_best - best_dist
      let layers_added := new_layer - last_prefix_layer
      (decide (delta < 0) && decide (layers_added ≥ min_prefix_size),
        best_layers', best_dists')

/-- Run-independent options of a `LEAPSynthesisPass` (leap.py lines 42-166)
together with the two external numeric oracles the search consults:
`cost c` models `self.cost.calc_cost(c, utry)` and `succs c` models
`layer_gen.gen_successors(c, data)` followed by the parallel
`Circuit.instantiate` of every successor (leap.py lines 217-228; the runtime
map returns instantiated circuits in input order). -/
structure LeapConfig (C : Type) where
  success_threshold : ℚ
  max_layer : Option ℤ
  no_progress_layers_allowed : ℤ
  min_prefix_size : ℤ
  store_partial_solutions : Bool
  partials_per_depth : ℤ
  cost : C → ℚ
  succs : C → List C

/-- The mutable local state of one `LEAPSynthesisPass.synthesize` call
(leap.py lines 185-210): the frontier (as the list of its entries; the real
`Frontier` is a priority queue, which the step relation models by letting any
entry be popped), the best-so-far tracking data, the partial-solution store
`psols` (a dict from depth to list, modelled as a total function defaulting to
the empty bucket) and the list of already-warned layers. -/
structure LeapState (C : Type) where
  frontier : List (C × ℤ)
  best_dist : ℚ
  best_circ : C
  best_layer : ℤ
  best_dists : List ℚ
  best_layers : List ℤ
  last_prefix_layer : ℤ
  psols : ℤ → List (C × ℚ)
  warned_layers : List ℤ

/-- The guard `self.max_layer is None or layer + 1 < self.max_layer` used at
leap.py lines 262 and 275. -/
def maxLayerAllows (max_layer : Option ℤ) (l : ℤ) : Bool :=
  match max_layer with
  | none => true
  | some ml => decide (l < ml)

/-- Insert an entry into a cost-sorted bucket, after all entries of
less-or-equal cost (so the overall sort is stable). -/
def insertByCost {C : Type} (x : C × ℚ) : List (C × ℚ) → List (C × ℚ)
  | [] => [x]
  | y :: ys => if x.2 ≤ y.2 then x :: y :: ys else y :: insertByCost x ys

/-- Modelled from the spec: Python's built-in stable ascending sort
`psols[layer].sort(key=lambda x: x[1])` (leap.py line 272), as a stable
insertion sort by the cost component. -/
def sortByCost {C : Type} : List (C × ℚ) → List (C × ℚ)
  | [] => []
  | x :: xs => insertByCost x (sortByCost xs)

/-- The bucket-trimming step of leap.py lines 271-273: when the bucket has
grown beyond `partials_per_depth`, sort ascending by cost and delete the last
(worst) entry. -/
def trimBucket {C : Type} (partials_per_depth : ℤ) (bucket : List (C × ℚ)) :
    List (C × ℚ) :=
  if (bucket.length : ℤ) > partials_per_depth then (sortByCost bucket).dropLast
  else bucket

/-- The body of the `for circuit in circuits` loop of `synthesize` (leap.py
lines 231-276) for one candidate.  `Sum.inr (st, c)` models the early
`return circuit` on success (leap.py lines 234-240; the state is carried
because the code first stores `psols` into the data dict); `Sum.inl st'`
continues the loop with the updated state. -/
def evalCandidate {C : Type} (cfg : LeapConfig C) (layer : ℤ)
    (st : LeapState C) (circuit : C) : LeapState C ⊕ (LeapState C × C) :=
  let dist := cfg.cost circuit
  if dist < cfg.success_threshold then
    Sum.inr (st, circuit)
  else
    let st1 :=
      if checkNewBest cfg.success_threshold (layer + 1) dist st.best_layer
          st.best_dist then
        let stb :=
          { st with best_dist := dist, best_circ := circuit,
                    best_layer := layer + 1 }
        let r := checkLeapCondition cfg.min_prefix_size (layer + 1)
          stb.best_dist st.best_layers st.best_dists st.last_prefix_layer
        let stc := { stb with best_layers := r.2.1, best_dists := r.2.2 }
        if r.1 then
          { stc with
              last_prefix_layer := layer + 1,
              frontier :=
                if maxLayerAllows cfg.max_layer (layer + 1) then
                  [(circuit, layer + 1)]
                else [] }
        else stc
      else st
    let st2 :=
      if cfg.store_partial_solutions then
        { st1 with
            psols := Function.update st1.psols layer
              (trimBucket cfg.partials_per_depth
                (st1.psols layer ++ [(circuit, dist)])) }
      else st1
    if maxLayerAllows cfg.max_layer (layer + 1) then
      Sum.inl { st2 with frontier := st2.frontier ++ [(circuit, layer + 1)] }
    else
      Sum.inl st2

/-- Fold `evalCandidate` over an instantiated successor batch, propagating the
early success return. -/
def processCands {C : Type} (cfg : LeapConfig C) (layer : ℤ) :
    List C → LeapState C → LeapState C ⊕ (LeapState C × C)
  | [], st => Sum.inl st
  | c :: cs, st =>
      match evalCandidate cfg layer st c with
      | Sum.inl st' => processCands cfg layer cs st'
      | Sum.inr r => Sum.inr r

/-- The no-progress warning bookkeeping at the end of one main-loop iteration
(leap.py lines 278-288); only `warned_layers` can change. -/
def warnStep {C : Type} (cfg : LeapConfig C) (layer : ℤ) (st : LeapState C) :
    LeapState C :=
  let layer_diff := |st.best_layer - layer|
  if layer_diff % cfg.no_progress_layers_allowed = 0 ∧ 0 < layer_diff ∧
      layer ∉ st.warned_layers then
    { st with warned_layers := st.warned_layers ++ [layer] }
  else st

/-- One iteration of the `while not frontier.empty()` loop (leap.py lines
213-288).  The real `Frontier.pop` removes the heuristically best entry; the
model pops the entry at index `i % length` for an arbitrary `i`, which covers
every heuristic.  `none` means the frontier was empty (the loop exits);
`some (Sum.inr (st, c))` is the early success return. -/
def leapStep {C : Type} (cfg : LeapConfig C) (i : ℕ) (st : LeapState C) :
    Option (LeapState C ⊕ (LeapState C × C)) :=
  match st.frontier[i % st.frontier.length]? with
  | none => none
  | some (top_circuit, layer) =>
      let st0 :=
        { st with frontier := st.frontier.eraseIdx (i % st.frontier.length) }
      match cfg.succs top_circuit with
      | [] => some (Sum.inl st0)
      | c :: cs =>
          match processCands cfg layer (c :: cs) st0 with
          | Sum.inl st' => some (Sum.inl (warnStep cfg layer st'))
          | Sum.inr r => some (Sum.inr r)

/-- Result of a `synthesize` run: `success` is the early return of a circuit
whose cost beat the threshold (leap.py lines 234-240), `exhausted` is the
frontier-emptied path (leap.py lines 290-298), carrying the returned
`best_circ` together with the `best_layer` and `best_dist` reported in the
logged warning. -/
inductive LeapOutcome (C : Type) where
  | success : LeapState C → C → LeapOutcome C
  | exhausted : C → ℤ → ℚ → LeapOutcome C

/-- The main loop of `synthesize`, with `fuel` bounding the number of
iterations (`none` = fuel ran out) and `choice` selecting which frontier entry
each pop takes. -/
def runLeap {C : Type} (cfg : LeapConfig C) (choice : ℕ → ℕ) :
    ℕ → LeapState C → Option (LeapOutcome C)
  | 0, st =>
      if st.frontier.isEmpty then
        some (LeapOutcome.exhausted st.best_circ st.best_layer st.best_dist)
      else none
  | fuel + 1, st =>
      if st.frontier.isEmpty then
        some (LeapOutcome.exhausted st.best_circ st.best_layer st.best_dist)
      else
        match leapStep cfg (choice fuel) st with
        | none => none
        | some (Sum.inl st') => runLeap cfg choice fuel st'
        | some (Sum.inr (st', c)) => some (LeapOutcome.success st' c)

/-- The state set up by leap.py lines 185-199 after instantiating the initial
layer: frontier seeded at depth 0, best tracking initialised to the initial
layer, empty partial-solution store. -/
def initLeapState {C : Type} (cfg : LeapConfig C) (initial_layer : C) :
    LeapState C :=
  { frontier := [(initial_layer, 0)]
    best_dist := cfg.cost initial_layer
    best_circ := initial_layer
    best_layer := 0
    best_dists := [cfg.cost initial_layer]
    best_layers := [0]
    last_prefix_layer := 0
    psols := fun _ => []
    warned_layers := [] }

/-- `LEAPSynthesisPass.synthesize` (leap.py lines 168-298): evaluate the
initial layer, return it immediately when already below threshold (lines
204-206), otherwise run the main loop. -/
def synthesize {C : Type} (cfg : LeapConfig C) (choice : ℕ → ℕ) (fuel : ℕ)
    (initial_layer : C) : Option (LeapOutcome C) :=
  let st := initLeapState cfg initial_layer
  if st.best_dist < cfg.success_threshold then
    some (LeapOutcome.success st initial_layer)
  else runLeap cfg choice fuel st

/-- Reachability along non-returning iterations of the main loop. -/
inductive LeapReach {C : Type} (cfg : LeapConfig C) :
    LeapState C → LeapState C → Prop where
  | refl (s : LeapState C) : LeapReach cfg s s
  | step (s t u : LeapState C) (i : ℕ) :
      leapStep cfg i s = some (Sum.inl t) → LeapReach cfg t u →
      LeapReach cfg s u

/-- Modelled from the spec: a gate descriptor ("an immutable descriptor
carrying name, num_qudits, num_params, ...; gate equality is structural").
`gid` stands for the name/matrix family, `is_measurement` marks the
`MeasurementPlaceholder` terminal gates; parameters play no role in the
claims. -/
structure MGate where
  gid : ℕ
  num_qudits : ℕ
  is_measurement : Bool
deriving DecidableEq

/-- Modelled from the spec: an operation is a `(gate, location)` pair where
`location` is an ordered tuple of qudit indices of length
`gate.num_qudits`. -/
structure MOp where
  gate : MGate
  location : List ℕ
deriving DecidableEq

/-- Modelled from the spec: a circuit is an ordered sequence of operations
over a fixed qudit width, with a radix per qudit. -/
structure MCircuit where
  radixes : List ℕ
  ops : List MOp
deriving DecidableEq

/-- Modelled from the spec: `Circuit.num_qudits`, the qudit width. -/
def MCircuit.num_qudits (c : MCircuit) : ℕ := c.radixes.length

/-- Modelled from the spec: `Circuit.gate_set`, the distinct gates present. -/
def MCircuit.gate_set (c : MCircuit) : List MGate :=
  (c.ops.map (fun o => o.gate)).dedup

/-- Modelled from the spec: `Circuit.count(gate)`, the number of operations
with that gate. -/
def MCircuit.count (c : MCircuit) (g : MGate) : ℕ :=
  (c.ops.filter (fun o => decide (o.gate = g))).length

/-- All index pairs `(l[i], l[j])` with `i < j` of a location tuple. -/
def listPairs : List ℕ → List (ℕ × ℕ)
  | [] => []
  | x :: xs => xs.map (fun y => (x, y)) ++ listPairs xs

/-- Modelled from the spec: `Circuit.coupling_graph`, the undirected pairs of
qudits co-acted on by any multi-qudit operation. -/
def MCircuit.coupling_graph (c : MCircuit) : List (ℕ × ℕ) :=
  (((c.ops.filter (fun o => decide (2 ≤ o.gate.num_qudits))).map
    (fun o => listPairs o.location)).flatten).dedup

/-- The number of multi-qudit operations of a circuit (what the spec calls
the block's `mq_count`). -/
def MCircuit.mq_count (c : MCircuit) : ℕ :=
  (c.ops.filter (fun o => decide (2 ≤ o.gate.num_qudits))).length

/-- The number of single-qudit operations of a circuit (the spec's
`sq_count`). -/
def MCircuit.sq_count (c : MCircuit) : ℕ :=
  (c.ops.filter (fun o => decide (o.gate.num_qudits = 1))).length

/-- Modelled from the spec: a machine model is `(num_qudits, coupling_graph,
gate_set)` plus the radix list consulted by `compile`'s preamble. -/
structure MModel where
  num_qudits : ℕ
  radixes : List ℕ
  gate_set : List MGate
  coupling_graph : List (ℕ × ℕ)

/-- Modelled from the spec: membership of the unordered pair `{a, b}` in a
machine coupling graph (the real `CouplingGraph` stores unordered pairs). -/
def inGraph (G : List (ℕ × ℕ)) (a b : ℕ) : Bool :=
  G.any (fun e => (decide (e.1 = a) && decide (e.2 = b)) ||
    (decide (e.1 = b) && decide (e.2 = a)))

/-- The operation handed to a replace filter: `old.gate` is a `CircuitGate`
with body `org` exactly when `block = some org` (`old.gate._circuit` in the
source); `location` maps the block's local qudits to parent qudits. -/
structure MOperation where
  block : Option MCircuit
  location : List ℕ

/-- The `_replace_filter(new, old)` closure produced by
`_gen_replace_filter(model)` (compile.py lines 692-718).  Python's tuple
comparison `(new_mq_n, new_sq_n) < (org_mq_n, org_sq_n)` is the strict
lexicographic order. -/
def replaceFilter (model : MModel) (new : MCircuit) (old : MOperation) :
    Bool :=
  match old.block with
  | none => true
  | some org =>
      if org.gate_set.any (fun g => decide (g ∉ model.gate_set)) then true
      else if (MCircuit.coupling_graph org).any (fun e =>
          ! inGraph model.coupling_graph (old.location.getD e.1 0)
            (old.location.getD e.2 0)) then true
      else
        let org_sq_n := ((org.gate_set.filter
          (fun g => decide (g.num_qudits = 1))).map
            (fun g => org.count g)).sum
        let org_mq_n := ((org.gate_set.filter
          (fun g => decide (2 ≤ g.num_qudits))).map
            (fun g => org.count g)).sum
        let new_sq_n := ((new.gate_set.filter
          (fun g => decide (g.num_qudits = 1))).map
            (fun g => new.count g)).sum
        let new_mq_n := ((new.gate_set.filter
          (fun g => decide (2 ≤ g.num_qudits))).map
            (fun g => new.count g)).sum
        decide (new_mq_n < org_mq_n ∨
          (new_mq_n = org_mq_n ∧ new_sq_n < org_sq_n))

/-- The runtime type of `compile`'s first argument: a circuit, a unitary
(only its radixes matter to the preamble), a pure state, or anything else
(the `TypeError` branch of compile.py lines 91-104). -/
inductive CompileInput where
  | circuit (c : MCircuit)
  | unitary (radixes : List ℕ)
  | state (radixes : List ℕ)
  | other

/-- The radixes of a well-typed input, `none` for the ill-typed case. -/
def CompileInput.radixes? : CompileInput → Option (List ℕ)
  | CompileInput.circuit c => some c.radixes
  | CompileInput.unitary r => some r
  | CompileInput.state r => some r
  | CompileInput.other => none

/-- The errors `compile` can raise before any pass runs: the `TypeError` of
the input dispatch, the `ValueError`s of the validation preamble, and the
`NotImplementedError`s of the workflow builders (optimisation level 4 and
state preparation), which are raised while the task is being built, still
before the compiler executes a pass. -/
inductive CompileErr where
  | typeError
  | valueQubitOnlyInput
  | valueMachineTooSmall
  | valueQubitOnlyModel
  | valueNoEntangler
  | valueBadOptLevel
  | valueBadSynthSize
  | valueGateTooWide
  | valueUnitaryTooBig
  | valueStateTooBig
  | notImplementedStatePrep
  | notImplementedOptFour
deriving DecidableEq

/-- Which of the preamble errors are Python `ValueError`s. -/
def CompileErr.isValueError : CompileErr → Bool
  | CompileErr.valueQubitOnlyInput => true
  | CompileErr.valueMachineTooSmall => true
  | CompileErr.valueQubitOnlyModel => true
  | CompileErr.valueNoEntangler => true
  | CompileErr.valueBadOptLevel => true
  | CompileErr.valueBadSynthSize => true
  | CompileErr.valueGateTooWide => true
  | CompileErr.valueUnitaryTooBig => true
  | CompileErr.valueStateTooBig => true
  | _ => false

/-- Modelled from the spec: the `CNOT` two-qubit gate descriptor. -/
def CNOTGate : MGate := { gid := 0, num_qudits := 2, is_measurement := false }

/-- Modelled from the spec: the `U3` single-qubit gate descriptor. -/
def U3Gate : MGate := { gid := 1, num_qudits := 1, is_measurement := false }

/-- All-to-all coupling over `n` qudits. -/
def allPairs (n : ℕ) : List (ℕ × ℕ) := listPairs (List.range n)

/-- Modelled from the spec: `MachineModel(n)` with defaults, "an all-to-all
connected hardware with CNOTs and U3s as native gates". -/
def defaultModel (n : ℕ) : MModel :=
  { num_qudits := n
    radixes := List.replicate n 2
    gate_set := [CNOTGate, U3Gate]
    coupling_graph := allPairs n }

/-- The model the preamble works with: the given one, or the default built
from the input width (compile.py lines 114-115). -/
def resolvedModel (rads : List ℕ) (model0 : Option MModel) : MModel :=
  model0.getD (defaultModel rads.length)

/-- The validation preamble and workflow dispatch of `compile` (compile.py
lines 91-268), up to but not including the construction of the `Compiler`:
everything here happens before any pass runs.  `optimization_level` and
`max_synthesis_size` are taken as integers (their non-integer `TypeError`
branches concern Python dynamic typing of keyword arguments and are not
modelled).  `Except.ok ()` means the preamble accepted the call and handed a
task to the compiler. -/
def compileValidate (input : CompileInput) (model0 : Option MModel)
    (optimization_level : ℤ) (max_synthesis_size : ℤ) :
    Except CompileErr Unit :=
  match input.radixes? with
  | none => Except.error CompileErr.typeError
  | some rads =>
      if rads.all (fun r => decide (r = 2)) = false then
        Except.error CompileErr.valueQubitOnlyInput
      else
        let model := resolvedModel rads model0
        if model.num_qudits < rads.length then
          Except.error CompileErr.valueMachineTooSmall
        else if model.radixes.all (fun r => decide (r = 2)) = false then
          Except.error CompileErr.valueQubitOnlyModel
        else if (model.gate_set.filter
            (fun g => decide (2 ≤ g.num_qudits))).length = 0 ∧
            1 < rads.length then
          Except.error CompileErr.valueNoEntangler
        else if optimization_level < 1 ∨ 4 < optimization_level then
          Except.error CompileErr.valueBadOptLevel
        else if max_synthesis_size < 2 then
          Except.error CompileErr.valueBadSynthSize
        else
          match input with
          | CompileInput.circuit c =>
              if max_synthesis_size < (c.num_qudits : ℤ) ∧
                  c.gate_set.any (fun g =>
                    decide (max_synthesis_size < (g.num_qudits : ℤ)) &&
                      ! g.is_measurement) then
                Except.error CompileErr.valueGateTooWide
              else if optimization_level = 4 then
                Except.error CompileErr.notImplementedOptFour
              else Except.ok ()
          | CompileInput.unitary r =>
              if max_synthesis_size < (r.length : ℤ) then
                Except.error CompileErr.valueUnitaryTooBig
              else if optimization_level = 4 then
                Except.error CompileErr.notImplementedOptFour
              else Except.ok ()
          | CompileInput.state r =>
              if max_synthesis_size < (r.length : ℤ) then
                Except.error CompileErr.valueStateTooBig
              else Except.error CompileErr.notImplementedStatePrep
          | CompileInput.other => Except.error CompileErr.typeError

/-- A concrete configuration exercising a prefix freeze: threshold 1, no
layer cap, candidate 7 has cost 5, everything else cost 20. -/
def freezeCfg : LeapConfig ℕ :=
  { success_threshold := 1
    max_layer := none
    no_progress_layers_allowed := 10
    min_prefix_size := 3
    store_partial_solutions := false
    partials_per_depth := 25
    cost := fun n => if n = 7 then 5 else 20
    succs := fun _ => [] }

/-- A search state whose best-distance history `[10, 8]` at layers `[0, 1]`
extrapolates to a predicted 4 at layer 3, so a candidate of cost 5 at layer 3
triggers the freeze. -/
def freezeSt : LeapState ℕ :=
  { frontier := [(0, 2)]
    best_dist := 8
    best_circ := 0
    best_layer := 2
    best_dists := [10, 8]
    best_layers := [0, 1]
    last_prefix_layer := 0
    psols := fun _ => []
    warned_layers := [] }

/-- A trivial configuration for the freeze-safety witness. -/
def safetyCfg : LeapConfig ℕ :=
  { success_threshold := 1
    max_layer := none
    no_progress_layers_allowed := 10
    min_prefix_size := 3
    store_partial_solutions := false
    partials_per_depth := 25
    cost := fun _ => 20
    succs := fun _ => [] }

/-- A post-freeze state: frozen at layer 2, frontier re-seeded at depth 3. -/
def safetySt : LeapState ℕ :=
  { frontier := [(5, 3)]
    best_dist := 6
    best_circ := 5
    best_layer := 3
    best_dists := [20, 6]
    best_layers := [0, 3]
    last_prefix_layer := 2
    psols := fun _ => []
    warned_layers := [] }

/-- A configuration taking one real search step: the initial circuit 0 costs
20, its successor 1 costs 19 and becomes the new best. -/
def stepCfg : LeapConfig ℕ :=
  { success_threshold := 1
    max_layer := none
    no_progress_layers_allowed := 10
    min_prefix_size := 3
    store_partial_solutions := false
    partials_per_depth := 25
    cost := fun n => if n = 0 then 20 else 19
    succs := fun n => [n + 1] }

/-- The state after `initLeapState stepCfg 0` takes one `leapStep`. -/
def stepSt : LeapState ℕ :=
  { frontier := [(1, 1)]
    best_dist := 19
    best_circ := 1
    best_layer := 1
    best_dists := [20, 19]
    best_layers := [0, 1]
    last_prefix_layer := 0
    psols := fun _ => []
    warned_layers := [] }

/-- A state with an emptied frontier and a recorded best. -/
def exhaustedSt : LeapState ℕ :=
  { frontier := []
    best_dist := 7
    best_circ := 3
    best_layer := 2
    best_dists := [20, 7]
    best_layers := [0, 2]
    last_prefix_layer := 0
    psols := fun _ => []
    warned_layers := [] }

/-- A configuration for the exhausted-frontier witness. -/
def exhaustedCfg : LeapConfig ℕ :=
  { success_threshold := 1
    max_layer := none
    no_progress_layers_allowed := 10
    min_prefix_size := 3
    store_partial_solutions := false
    partials_per_depth := 25
    cost := fun _ => 20
    succs := fun _ => [] }

/-- A configuration whose candidates cost 5, above the threshold 1. -/
def deadCfgB : LeapConfig ℕ :=
  { success_threshold := 1
    max_layer := none
    no_progress_layers_allowed := 10
    min_prefix_size := 3
    store_partial_solutions := false
    partials_per_depth := 25
    cost := fun _ => 5
    succs := fun _ => [] }

/-- A configuration whose candidates all beat the threshold immediately. -/
def deadCfgA : LeapConfig ℕ :=
  { success_threshold := 1
    max_layer := none
    no_progress_layers_allowed := 10
    min_prefix_size := 3
    store_partial_solutions := false
    partials_per_depth := 25
    cost := fun _ => 0
    succs := fun _ => [] }

/-- A minimal state for the early-return witness. -/
def deadStA : LeapState ℕ :=
  { frontier := []
    best_dist := 20
    best_circ := 0
    best_layer := 0
    best_dists := [20]
    best_layers := [0]
    last_prefix_layer := 0
    psols := fun _ => []
    warned_layers := [] }

/-- A state whose current best distance 8 is improved by a cost-5 candidate. -/
def deadStB : LeapState ℕ :=
  { frontier := []
    best_dist := 8
    best_circ := 0
    best_layer := 0
    best_dists := [8]
    best_layers := [0]
    last_prefix_layer := 0
    psols := fun _ => []
    warned_layers := [] }

/-- Partial-solution bookkeeping witness configuration: storing enabled, at
most one partial per depth, every candidate costs 5. -/
def psolsCfg : LeapConfig ℕ :=
  { success_threshold := 1
    max_layer := none
    no_progress_layers_allowed := 10
    min_prefix_size := 3
    store_partial_solutions := true
    partials_per_depth := 1
    cost := fun _ => 5
    succs := fun _ => [] }

/-- A state whose depth-0 bucket already holds one partial of cost 3. -/
def psolsSt : LeapState ℕ :=
  { frontier := []
    best_dist := 20
    best_circ := 0
    best_layer := 0
    best_dists := [20]
    best_layers := [0]
    last_prefix_layer := 0
    psols := fun l => if l = 0 then [(9, 3)] else []
    warned_layers := [] }

/-- Storing enabled and a candidate that wins immediately (cost 0 below
threshold 1). -/
def psolsCexCfg : LeapConfig ℕ :=
  { success_threshold := 1
    max_layer := none
    no_progress_layers_allowed := 10
    min_prefix_size := 3
    store_partial_solutions := true
    partials_per_depth := 25
    cost := fun _ => 0
    succs := fun _ => [] }

/-- A state with empty partial-solution buckets. -/
def psolsCexSt : LeapState ℕ :=
  { frontier := []
    best_dist := 20
    best_circ := 0
    best_layer := 0
    best_dists := [20]
    best_layers := [0]
    last_prefix_layer := 0
    psols := fun _ => []
    warned_layers := [] }

/-- A 4-qubit measurement placeholder. -/
def measGate : MGate := { gid := 2, num_qudits := 4, is_measurement := true }

/-- A 4-qubit circuit whose only wide gate is a measurement placeholder. -/
def wideMeasCircuit : MCircuit :=
  { radixes := [2, 2, 2, 2]
    ops := [{ gate := measGate, location := [0, 1, 2, 3] }] }

/-- A 4-qubit non-measurement gate, wider than the default
`max_synthesis_size` of 3. -/
def bigGate : MGate := { gid := 3, num_qudits := 4, is_measurement := false }

/-- A 4-qubit circuit holding one 4-qubit non-measurement gate. -/
def wideCircuit : MCircuit :=
  { radixes := [2, 2, 2, 2]
    ops := [{ gate := bigGate, location := [0, 1, 2, 3] }] }

/-- A CNOT operation on qudits `a` and `b`. -/
def cnotOp (a b : ℕ) : MOp := { gate := CNOTGate, location := [a, b] }

/-- A two-qubit block body holding two CNOTs. -/
def orgCircuit : MCircuit := { radixes := [2, 2], ops := [cnotOp 0 1, cnotOp 0 1] }

/-- A re-synthesised body holding a single CNOT. -/
def newCircuit : MCircuit := { radixes := [2, 2], ops := [cnotOp 0 1] }

/-- The block operation wrapping `orgCircuit` on parent qudits 0 and 1. -/
def oldOp : MOperation := { block := some orgCircuit, location := [0, 1] }

/-- An operation whose gate is not a `CircuitGate`. -/
def oldNoneOp : MOperation := { block := none, location := [0] }

/-- The default two-qubit machine model. -/
def wModel : MModel := defaultModel 2

theorem checkNewBest_eq_true (success_threshold : ℚ) (layer : ℤ) (dist : ℚ)
    (best_layer : ℤ) (best_dist : ℚ) :
    checkNewBest success_threshold layer dist best_layer best_dist = true ↔
      ((dist < best_dist ∧
          (best_dist ≥ success_threshold ∨ layer ≤ best_layer)) ∨
        (dist < success_threshold ∧ layer < best_layer)) := by
  simp [checkNewBest]

/-- C1: `LEAPSynthesisPass.check_new_best(layer, dist, best_layer, best_dist)`
returns true iff either `dist < best_dist` and (`best_dist ≥
success_threshold` or `layer ≤ best_layer`), or `dist < success_threshold` and
`layer < best_layer`. -/
theorem checkNewBest_iff (success_threshold : ℚ) (layer : ℤ) (dist : ℚ)
    (best_layer : ℤ) (best_dist : ℚ) :
    checkNewBest success_threshold layer dist best_layer best_dist = true ↔
      ((dist < best_dist ∧
          (best_dist ≥ success_threshold ∨ layer ≤ best_layer)) ∨
        (dist < success_threshold ∧ layer < best_layer)) := by
  simp [checkNewBest]

/-- C2: `check_leap_condition(new_layer, best_dist, best_layers, best_dists,
last_prefix_layer)` fits a regression `dist = m·layer + b` over the given
history, computes `predicted = m·new_layer + b`, appends `new_layer` and
`best_dist` to the history lists, returns false whenever the regression result
is NaN, and otherwise returns true iff `predicted - best_dist < 0` and
`new_layer - last_prefix_layer ≥ min_prefix_size`. -/
theorem checkLeapCondition_spec (min_prefix_size new_layer : ℤ)
    (best_dist : ℚ) (best_layers : List ℤ) (best_dists : List ℚ)
    (last_prefix_layer : ℤ) :
    (checkLeapCondition min_prefix_size new_layer best_dist best_layers
        best_dists last_prefix_layer).2.1 = best_layers ++ [new_layer] ∧
    (checkLeapCondition min_prefix_size new_layer best_dist best_layers
        best_dists last_prefix_layer).2.2 = best_dists ++ [best_dist] ∧
    ((checkLeapCondition min_prefix_size new_layer best_dist best_layers
        best_dists last_prefix_layer).1 = true ↔
      ∃ m b,
        linregress (best_layers.map (fun l => (l : ℚ))) best_dists =
          some (m, b) ∧
        m * (new_layer : ℚ) + b - best_dist < 0 ∧
        min_prefix_size ≤ new_layer - last_prefix_layer) := by
  unfold checkLeapCondition
  cases h : linregress (best_layers.map (fun l => (l : ℚ))) best_dists with
  | none => simp [h]
  | some mb =>
      refine ⟨rfl, rfl, ?_⟩
      simp only [h, Bool.and_eq_true, decide_eq_true_eq]
      constructor
      · rintro ⟨h1, h2⟩
        exact ⟨mb.1, mb.2, rfl, h1, h2⟩
      · rintro ⟨m, b, hmb, h1, h2⟩
        injection hmb with hmb
        subst hmb
        exact ⟨h1, h2⟩

theorem evalCandidate_best_dist {C : Type} (cfg : LeapConfig C) (layer : ℤ)
    (st : LeapState C) (c : C) (st' : LeapState C)
    (h : evalCandidate cfg layer st c = Sum.inl st') :
    st'.best_dist ≤ st.best_dist := by
  unfold evalCandidate at h
  by_cases hth : cfg.cost c < cfg.success_threshold
  · simp [hth] at h
  · simp only [if_neg hth] at h
    by_cases hnb : checkNewBest cfg.success_threshold (layer + 1) (cfg.cost c)
        st.best_layer st.best_dist = true
    · have hlt : cfg.cost c < st.best_dist := by
        rcases (checkNewBest_eq_true _ _ _ _ _).mp hnb with ⟨h1, _⟩ | ⟨h1, _⟩
        · exact h1
        · exact absurd h1 hth
      simp only [hnb, if_true] at h
      split at h <;> split at h <;> split at h <;>
        · injection h with h
          subst h
          simpa using le_of_lt hlt
    · simp only [hnb, if_false, Bool.false_eq_true] at h
      split at h <;> split at h <;>
        · injection h with h
          subst h
          simp

theorem evalCandidate_inl_shape {C : Type} (cfg : LeapConfig C) (layer : ℤ)
    (st : LeapState C) (c : C) (st' : LeapState C)
    (h : evalCandidate cfg layer st c = Sum.inl st') :
    ¬ cfg.cost c < cfg.success_threshold ∧
    ((checkNewBest cfg.success_threshold (layer + 1) (cfg.cost c) st.best_layer
          st.best_dist = true ∧
        (checkLeapCondition cfg.min_prefix_size (layer + 1) (cfg.cost c)
            st.best_layers st.best_dists st.last_prefix_layer).1 = true ∧
        st'.last_prefix_layer = layer + 1 ∧
        st'.frontier =
          (if maxLayerAllows cfg.max_layer (layer + 1) then
            [(c, layer + 1), (c, layer + 1)]
          else [])) ∨
      (¬ (checkNewBest cfg.success_threshold (layer + 1) (cfg.cost c)
            st.best_layer st.best_dist = true ∧
          (checkLeapCondition cfg.min_prefix_size (layer + 1) (cfg.cost c)
              st.best_layers st.best_dists st.last_prefix_layer).1 = true) ∧
        st'.last_prefix_layer = st.last_prefix_layer ∧
        st'.frontier =
          (if maxLayerAllows cfg.max_layer (layer + 1) then
            st.frontier ++ [(c, layer + 1)]
          else st.frontier))) := by
  by_cases hth : cfg.cost c < cfg.success_threshold
  · simp [evalCandidate, hth] at h
  · refine ⟨hth, ?_⟩
    by_cases hnb : checkNewBest cfg.success_threshold (layer + 1) (cfg.cost c)
        st.best_layer st.best_dist = true
    · by_cases hr : (checkLeapCondition cfg.min_prefix_size (layer + 1)
          (cfg.cost c) st.best_layers st.best_dists st.last_prefix_layer).1 =
          true
      · refine Or.inl ⟨hnb, hr, ?_⟩
        by_cases hsp : cfg.store_partial_solutions = true <;>
          by_cases hml : maxLayerAllows cfg.max_layer (layer + 1) = true <;>
            · simp [evalCandidate, hth, hnb, hr, hsp, hml] at h
              subst h
              simp [hml]
      · refine Or.inr ⟨fun hc => hr hc.2, ?_⟩
        by_cases hsp : cfg.store_partial_solutions = true <;>
          by_cases hml : maxLayerAllows cfg.max_layer (layer + 1) = true <;>
            · simp [evalCandidate, hth, hnb, hr, hsp, hml] at h
              subst h
              simp [hml]
    · refine Or.inr ⟨fun hc => hnb hc.1, ?_⟩
      by_cases hsp : cfg.store_partial_solutions = true <;>
        by_cases hml : maxLayerAllows cfg.max_layer (layer + 1) = true <;>
          · simp [evalCandidate, hth, hnb, hsp, hml] at h
            subst h
            simp [hml]

theorem evalCandidate_lp_inv {C : Type} (cfg : LeapConfig C) (layer : ℤ)
    (st : LeapState C) (c : C) (st' : LeapState C)
    (hl : st.last_prefix_layer ≤ layer + 1)
    (hf : ∀ p ∈ st.frontier, st.last_prefix_layer ≤ p.2)
    (h : evalCandidate cfg layer st c = Sum.inl st') :
    st.last_prefix_layer ≤ st'.last_prefix_layer ∧
    st'.last_prefix_layer ≤ layer + 1 ∧
    ∀ p ∈ st'.frontier, st'.last_prefix_layer ≤ p.2 := by
  rcases (evalCandidate_inl_shape cfg layer st c st' h).2 with
    ⟨_, _, hlp, hfr⟩ | ⟨_, hlp, hfr⟩
  · refine ⟨hlp ▸ hl, le_of_eq hlp, ?_⟩
    intro p hp
    rw [hfr] at hp
    split at hp
    · simp at hp
      simp [hp, hlp]
    · simp at hp
  · refine ⟨le_of_eq hlp.symm, hlp ▸ hl, ?_⟩
    intro p hp
    rw [hfr] at hp
    rw [hlp]
    split at hp
    · rcases List.mem_append.mp hp with hp | hp
      · exact hf p hp
      · simp at hp
        simp [hp, hl]
    · exact hf p hp

theorem processCands_best_dist {C : Type} (cfg : LeapConfig C) (layer : ℤ)
    (cs : List C) (st st' : LeapState C)
    (h : processCands cfg layer cs st = Sum.inl st') :
    st'.best_dist ≤ st.best_dist := by
  induction cs generalizing st with
  | nil =>
      simp [processCands] at h
      simp [h]
  | cons c cs ih =>
      unfold processCands at h
      cases he : evalCandidate cfg layer st c with
      | inl st1 =>
          rw [he] at h
          exact le_trans (ih st1 h) (evalCandidate_best_dist cfg layer st c st1 he)
      | inr r => rw [he] at h; cases h

theorem processCands_lp_inv {C : Type} (cfg : LeapConfig C) (layer : ℤ)
    (cs : List C) (st st' : LeapState C)
    (hl : st.last_prefix_layer ≤ layer + 1)
    (hf : ∀ p ∈ st.frontier, st.last_prefix_layer ≤ p.2)
    (h : processCands cfg layer cs st = Sum.inl st') :
    st.last_prefix_layer ≤ st'.last_prefix_layer ∧
    st'.last_prefix_layer ≤ layer + 1 ∧
    ∀ p ∈ st'.frontier, st'.last_prefix_layer ≤ p.2 := by
  induction cs generalizing st with
  | nil =>
      simp [processCands] at h
      subst h
      exact ⟨le_refl _, hl, hf⟩
  | cons c cs ih =>
      unfold processCands at h
      cases he : evalCandidate cfg layer st c with
      | inl st1 =>
          rw [he] at h
          obtain ⟨h1, h2, h3⟩ := evalCandidate_lp_inv cfg layer st c st1 hl hf he
          obtain ⟨g1, g2, g3⟩ := ih st1 h2 h3 h
          exact ⟨le_trans h1 g1, g2, g3⟩
      | inr r => rw [he] at h; cases h

theorem warnStep_fields {C : Type} (cfg : LeapConfig C) (layer : ℤ)
    (st : LeapState C) :
    (warnStep cfg layer st).frontier = st.frontier ∧
    (warnStep cfg layer st).last_prefix_layer = st.last_prefix_layer ∧
    (warnStep cfg layer st).best_dist = st.best_dist := by
  simp only [warnStep]
  split <;> simp

theorem leapStep_best_dist {C : Type} (cfg : LeapConfig C) (i : ℕ)
    (st st' : LeapState C) (h : leapStep cfg i st = some (Sum.inl st')) :
    st'.best_dist ≤ st.best_dist := by
  unfold leapStep at h
  cases hg : st.frontier[i % st.frontier.length]? with
  | none => rw [hg] at h; cases h
  | some p =>
      obtain ⟨tc, layer⟩ := p
      rw [hg] at h
      cases hs : cfg.succs tc with
      | nil =>
          simp only [hs] at h
          injection h with h
          injection h with h
          simp [← h]
      | cons c cs =>
          simp only [hs] at h
          cases hp : processCands cfg layer (c :: cs) { st with frontier := st.frontier.eraseIdx (i % st.frontier.length) } with
          | inl st1 =>
              rw [hp] at h
              injection h with h
              injection h with h
              subst h
              have h2 := processCands_best_dist cfg layer (c :: cs) _ st1 hp
              have h3 := (warnStep_fields cfg layer st1).2.2
              rw [h3]
              exact h2
          | inr r => rw [hp] at h; cases h

theorem leapStep_lp_inv {C : Type} (cfg : LeapConfig C) (i : ℕ)
    (st st' : LeapState C)
    (hf : ∀ p ∈ st.frontier, st.last_prefix_layer ≤ p.2)
    (h : leapStep cfg i st = some (Sum.inl st')) :
    st.last_prefix_layer ≤ st'.last_prefix_layer ∧
    ∀ p ∈ st'.frontier, st'.last_prefix_layer ≤ p.2 := by
  unfold leapStep at h
  cases hg : st.frontier[i % st.frontier.length]? with
  | none => rw [hg] at h; cases h
  | some p =>
      obtain ⟨tc, layer⟩ := p
      have hmem : (tc, layer) ∈ st.frontier := List.getElem?_mem hg
      have hlay : st.last_prefix_layer ≤ layer := hf _ hmem
      have hl : st.last_prefix_layer ≤ layer + 1 := le_trans hlay (by linarith)
      rw [hg] at h
      have hf0 : ∀ p ∈ st.frontier.eraseIdx (i % st.frontier.length),
          st.last_prefix_layer ≤ p.2 := by
        intro p hp
        exact hf p (List.mem_of_mem_eraseIdx hp)
      cases hs : cfg.succs tc with
      | nil =>
          simp only [hs] at h
          injection h with h
          injection h with h
          subst h
          exact ⟨le_refl _, hf0⟩
      | cons c cs =>
          simp only [hs] at h
          cases hp : processCands cfg layer (c :: cs) { st with frontier := st.frontier.eraseIdx (i % st.frontier.length) } with
          | inl st1 =>
              rw [hp] at h
              injection h with h
              injection h with h
              subst h
              obtain ⟨g1, _, g3⟩ := processCands_lp_inv cfg layer (c :: cs)
                { st with frontier := st.frontier.eraseIdx (i % st.frontier.length) }
                st1 hl hf0 hp
              obtain ⟨w1, w2, _⟩ := warnStep_fields cfg layer st1
              refine ⟨by rw [w2]; exact g1, ?_⟩
              intro p hp2
              rw [w1] at hp2
              rw [w2]
              exact g3 p hp2
          | inr r => rw [hp] at h; cases h

theorem leapReach_inv {C : Type} (cfg : LeapConfig C) (s t : LeapState C)
    (h : LeapReach cfg s t)
    (hf : ∀ p ∈ s.frontier, s.last_prefix_layer ≤ p.2) :
    s.last_prefix_layer ≤ t.last_prefix_layer ∧
    ∀ p ∈ t.frontier, t.last_prefix_layer ≤ p.2 := by
  induction h with
  | refl s => exact ⟨le_refl _, hf⟩
  | step s t u i hstep _ ih =>
      obtain ⟨h1, h2⟩ := leapStep_lp_inv cfg i s t hf hstep
      obtain ⟨g1, g2⟩ := ih h2
      exact ⟨le_trans h1 g1, g2⟩

theorem leapReach_best_dist {C : Type} (cfg : LeapConfig C)
    (s t : LeapState C) (h : LeapReach cfg s t) :
    t.best_dist ≤ s.best_dist := by
  induction h with
  | refl s => exact le_refl _
  | step s t u i hstep _ ih =>
      exact le_trans ih (leapStep_best_dist cfg i s t hstep)

theorem evalCandidate_isInl {C : Type} (cfg : LeapConfig C) (layer : ℤ)
    (st : LeapState C) (c : C)
    (hth : ¬ cfg.cost c < cfg.success_threshold) :
    ∃ st', evalCandidate cfg layer st c = Sum.inl st' := by
  unfold evalCandidate
  simp only [if_neg hth]
  split <;> exact ⟨_, rfl⟩

/-- C3: when a new best circuit found at depth `layer + 1` satisfies the
prefix-freeze condition, the frontier is cleared and re-seeded with only that
circuit at depth `layer + 1`, and the re-seed happens only when `max_layer` is
`None` or `layer + 1 < max_layer`.  The freeze block itself (leap.py lines
260-263) leaves the frontier as the guarded singleton; the unconditional add
at lines 275-276 then appends the same circuit once more, so after the whole
candidate evaluation every frontier entry is that just-found best circuit at
depth `layer + 1`, and the frontier is empty when `max_layer` forbids the
re-seed. -/
theorem leap_freeze_reseeds_only_best {C : Type} (cfg : LeapConfig C)
    (layer : ℤ) (st : LeapState C) (c : C)
    (h1 : cfg.success_threshold ≤ cfg.cost c)
    (h2 : checkNewBest cfg.success_threshold (layer + 1) (cfg.cost c)
        st.best_layer st.best_dist = true)
    (h3 : (checkLeapCondition cfg.min_prefix_size (layer + 1) (cfg.cost c)
        st.best_layers st.best_dists st.last_prefix_layer).1 = true) :
    ∃ st', evalCandidate cfg layer st c = Sum.inl st' ∧
      st'.last_prefix_layer = layer + 1 ∧
      st'.frontier =
        (if maxLayerAllows cfg.max_layer (layer + 1) then
          [(c, layer + 1), (c, layer + 1)]
        else []) ∧
      (maxLayerAllows cfg.max_layer (layer + 1) = false →
        st'.frontier = []) ∧
      ∀ p ∈ st'.frontier, p = (c, layer + 1) := by
  have hth : ¬ cfg.cost c < cfg.success_threshold := not_lt.mpr h1
  obtain ⟨st', he⟩ := evalCandidate_isInl cfg layer st c hth
  rcases (evalCandidate_inl_shape cfg layer st c st' he).2 with
    ⟨_, _, hlp, hfr⟩ | ⟨hn, _, _⟩
  · refine ⟨st', he, hlp, hfr, ?_, ?_⟩
    · intro hml
      rw [hfr]
      simp [hml]
    · intro p hp
      rw [hfr] at hp
      split at hp
      · simpa using hp
      · simp at hp
  · exact absurd ⟨h2, h3⟩ hn

/-- C4: after a prefix freeze is recorded at layer `L`
(`last_prefix_layer = L`), every circuit subsequently popped from the frontier
(the entry `leapStep` would expand) has depth at least `L`.  The hypothesis
`hf` is the frontier invariant, which holds at the start of `synthesize` and
is preserved by every step (`leapReach_inv`). -/
theorem leap_freeze_safety {C : Type} (cfg : LeapConfig C)
    (s t : LeapState C) (L : ℤ)
    (hf : ∀ p ∈ s.frontier, s.last_prefix_layer ≤ p.2)
    (hL : s.last_prefix_layer = L)
    (hreach : LeapReach cfg s t)
    (i : ℕ) (c : C) (layer : ℤ)
    (hpop : t.frontier[i % t.frontier.length]? = some (c, layer)) :
    L ≤ layer := by
  obtain ⟨h1, h2⟩ := leapReach_inv cfg s t hreach hf
  have h3 := h2 _ (List.getElem?_mem hpop)
  subst hL
  exact le_trans h1 h3

/-- C5: over the life of one `synthesize` call the value of `best_dist` is
non-increasing: along any sequence of main-loop iterations the final
`best_dist` is at most the initial one (every update assigns a value no
greater than the previous one). -/
theorem leap_best_dist_monotone {C : Type} (cfg : LeapConfig C)
    (s t : LeapState C) (h : LeapReach cfg s t) :
    t.best_dist ≤ s.best_dist :=
  leapReach_best_dist cfg s t h

/-- C8: if the frontier empties without any circuit beating
`success_threshold`, `synthesize` does not raise: it returns normally with the
best-known circuit `best_circ`, reporting the recorded `best_layer` and
`best_dist` (leap.py lines 290-298). -/
theorem leap_exhausted_returns_best {C : Type} (cfg : LeapConfig C)
    (choice : ℕ → ℕ) (fuel : ℕ) (st : LeapState C)
    (h : st.frontier = []) :
    runLeap cfg choice fuel st =
      some (LeapOutcome.exhausted st.best_circ st.best_layer st.best_dist) := by
  cases fuel <;> simp [runLeap, h]

/-- C10: inside `synthesize`, a candidate with `dist < success_threshold`
returns before `check_new_best` is consulted, so `check_new_best` is only ever
invoked with `dist ≥ success_threshold`; under that precondition its second
clause (`dist < success_threshold ∧ layer < best_layer`) never fires, the
test degenerates to the first clause, and every accepted best update strictly
decreases `best_dist`. -/
theorem leap_second_clause_dead {C : Type} (cfg : LeapConfig C) (layer : ℤ)
    (st : LeapState C) (c : C) :
    (cfg.cost c < cfg.success_threshold →
      evalCandidate cfg layer st c = Sum.inr (st, c)) ∧
    (cfg.success_threshold ≤ cfg.cost c →
      (checkNewBest cfg.success_threshold (layer + 1) (cfg.cost c)
          st.best_layer st.best_dist = true ↔
        (cfg.cost c < st.best_dist ∧
          (cfg.success_threshold ≤ st.best_dist ∨
            layer + 1 ≤ st.best_layer)))) ∧
    (cfg.success_threshold ≤ cfg.cost c →
      checkNewBest cfg.success_threshold (layer + 1) (cfg.cost c)
          st.best_layer st.best_dist = true →
      cfg.cost c < st.best_dist) := by
  refine ⟨?_, ?_, ?_⟩
  · intro h
    simp [evalCandidate, h]
  · intro h
    rw [checkNewBest_eq_true]
    constructor
    · rintro (⟨g1, g2⟩ | ⟨g1, _⟩)
      · exact ⟨g1, g2⟩
      · exact absurd g1 (not_lt.mpr h)
    · rintro ⟨g1, g2⟩
      exact Or.inl ⟨g1, g2⟩
  · intro h hnb
    rcases (checkNewBest_eq_true _ _ _ _ _).mp hnb with ⟨g1, _⟩ | ⟨g1, _⟩
    · exact g1
    · exact absurd g1 (not_lt.mpr h)

theorem length_insertByCost {C : Type} (x : C × ℚ) (l : List (C × ℚ)) :
    (insertByCost x l).length = l.length + 1 := by
  induction l with
  | nil => rfl
  | cons y ys ih =>
      rw [insertByCost]
      split
      · simp
      · simp [ih]

theorem length_sortByCost {C : Type} (l : List (C × ℚ)) :
    (sortByCost l).length = l.length := by
  induction l with
  | nil => rfl
  | cons x xs ih => rw [sortByCost, length_insertByCost, ih, List.length_cons]

theorem trimBucket_length_le {C : Type} (p : ℤ) (b : List (C × ℚ))
    (hne : b ≠ []) (hlen : (b.length : ℤ) ≤ p + 1) :
    ((trimBucket p b).length : ℤ) ≤ p := by
  unfold trimBucket
  split
  · rename_i hgt
    rw [List.length_dropLast, length_sortByCost]
    have h1 : 1 ≤ b.length := List.length_pos.mpr hne
    omega
  · rename_i hle
    omega

theorem evalCandidate_psols_shape {C : Type} (cfg : LeapConfig C) (layer : ℤ)
    (st : LeapState C) (c : C) (st' : LeapState C)
    (hsp : cfg.store_partial_solutions = true)
    (h : evalCandidate cfg layer st c = Sum.inl st') :
    st'.psols = Function.update st.psols layer
      (trimBucket cfg.partials_per_depth
        (st.psols layer ++ [(c, cfg.cost c)])) := by
  by_cases hth : cfg.cost c < cfg.success_threshold
  · simp [evalCandidate, hth] at h
  · by_cases hnb : checkNewBest cfg.success_threshold (layer + 1) (cfg.cost c)
        st.best_layer st.best_dist = true
    · by_cases hr : (checkLeapCondition cfg.min_prefix_size (layer + 1)
          (cfg.cost c) st.best_layers st.best_dists st.last_prefix_layer).1 =
          true <;>
        by_cases hml : maxLayerAllows cfg.max_layer (layer + 1) = true <;>
          · simp [evalCandidate, hth, hnb, hr, hsp, hml] at h
            subst h
            rfl
    · by_cases hml : maxLayerAllows cfg.max_layer (layer + 1) = true <;>
        · simp [evalCandidate, hth, hnb, hsp, hml] at h
          subst h
          rfl

/-- C9 (amended): when `store_partial_solutions` is enabled, every candidate
that does not trigger the immediate success return (cost at least
`success_threshold`) is appended with its cost to `psols[layer]`, the bucket
being sorted ascending by cost and its worst entry dropped whenever it
exceeds `partials_per_depth`; consequently, if no bucket held more than
`partials_per_depth` entries before, none does afterwards. -/
theorem evalCandidate_psols_bound {C : Type} (cfg : LeapConfig C) (layer : ℤ)
    (st : LeapState C) (c : C)
    (hth : cfg.success_threshold ≤ cfg.cost c)
    (hsp : cfg.store_partial_solutions = true)
    (hb : ∀ l, ((st.psols l).length : ℤ) ≤ cfg.partials_per_depth) :
    ∃ st', evalCandidate cfg layer st c = Sum.inl st' ∧
      st'.psols layer = trimBucket cfg.partials_per_depth
        (st.psols layer ++ [(c, cfg.cost c)]) ∧
      ∀ l, ((st'.psols l).length : ℤ) ≤ cfg.partials_per_depth := by
  obtain ⟨st', he⟩ := evalCandidate_isInl cfg layer st c (not_lt.mpr hth)
  have hps := evalCandidate_psols_shape cfg layer st c st' hsp he
  refine ⟨st', he, ?_, ?_⟩
  · rw [hps, Function.update_same]
  · intro l
    rw [hps]
    by_cases hl : l = layer
    · subst hl
      rw [Function.update_same]
      apply trimBucket_length_le
      · simp
      · have hx := hb l
        rw [List.length_append, List.length_singleton]
        push_cast
        omega
    · rw [Function.update_noteq hl]
      exact hb l

/-- C9 counterexample: with `store_partial_solutions` enabled, a candidate
whose cost beats `success_threshold` is evaluated but returned immediately;
nothing is appended to `psols`, so not every evaluated candidate lands in its
bucket (the bucket of the popped depth stays empty). -/
theorem leap_psols_skips_success_cex :
    evalCandidate psolsCexCfg 0 psolsCexSt 5 = Sum.inr (psolsCexSt, 5) ∧
    psolsCexCfg.store_partial_solutions = true ∧
    psolsCexSt.psols 0 = [] := by
  refine ⟨?_, rfl, rfl⟩
  rfl

theorem sum_count_toFinset_filter (S : Multiset MGate) (P : MGate → Bool) :
    (S.toFinset.filter (fun g => P g = true)).sum (fun g => S.count g) =
      Multiset.card (S.filter (fun g => P g = true)) := by
  rw [← Multiset.toFinset_sum_count_eq (S.filter (fun g => P g = true))]
  rw [Multiset.toFinset_filter]
  apply Finset.sum_congr rfl
  intro g hg
  rw [Multiset.count_filter]
  rw [if_pos (Finset.mem_filter.mp hg).2]

theorem gateSet_count_sum (l : List MOp) (P : MGate → Bool) :
    (((l.map (fun o => o.gate)).dedup.filter P).map
        (fun g => (l.filter (fun o => decide (o.gate = g))).length)).sum =
      (l.filter (fun o => P o.gate)).length := by
  have hnd : ((l.map (fun o => o.gate)).dedup.filter P).Nodup :=
    (List.nodup_dedup _).filter P
  rw [← List.sum_toFinset _ hnd]
  rw [List.toFinset_filter]
  have hdtf : (l.map (fun o => o.gate)).dedup.toFinset =
      (l.map (fun o => o.gate)).toFinset := by
    ext a
    simp [List.mem_dedup]
  rw [hdtf]
  have hcnt : ∀ g, (l.filter (fun o => decide (o.gate = g))).length =
      Multiset.count g (↑(l.map (fun o => o.gate)) : Multiset MGate) := by
    intro g
    rw [← List.countP_eq_length_filter]
    rw [Multiset.coe_count]
    rw [List.count_eq_countP]
    rw [List.countP_map]
    congr 1
  have hmain := sum_count_toFinset_filter (↑(l.map (fun o => o.gate))) P
  rw [List.toFinset_coe] at hmain
  calc ((l.map (fun o => o.gate)).toFinset.filter (fun g => P g = true)).sum
        (fun g => (l.filter (fun o => decide (o.gate = g))).length)
      = ((l.map (fun o => o.gate)).toFinset.filter (fun g => P g = true)).sum
        (fun g => Multiset.count g
          (↑(l.map (fun o => o.gate)) : Multiset MGate)) := by
        apply Finset.sum_congr rfl
        intro g _
        exact hcnt g
    _ = Multiset.card (Multiset.filter (fun g => P g = true)
          (↑(l.map (fun o => o.gate)) : Multiset MGate)) := hmain
    _ = (l.filter (fun o => P o.gate)).length := by
        rw [Multiset.filter_coe]
        rw [Multiset.coe_card]
        rw [List.filter_map]
        rw [List.length_map]
        congr 1
        apply List.filter_congr
        intro o _
        simp

/-- The source's multi-qudit gate tally (the sum over the gate set of
per-gate counts, compile.py line 714/716) equals the number of multi-qudit
operations. -/
theorem mq_tally_eq (c : MCircuit) :
    ((c.gate_set.filter (fun g => decide (2 ≤ g.num_qudits))).map
      (fun g => c.count g)).sum = c.mq_count :=
  gateSet_count_sum c.ops (fun g => decide (2 ≤ g.num_qudits))

/-- The source's single-qudit gate tally (compile.py line 713/715) equals
the number of single-qudit operations. -/
theorem sq_tally_eq (c : MCircuit) :
    ((c.gate_set.filter (fun g => decide (g.num_qudits = 1))).map
      (fun g => c.count g)).sum = c.sq_count :=
  gateSet_count_sum c.ops (fun g => decide (g.num_qudits = 1))

/-- C6: the replace filter accepts when `old.gate` is not a `CircuitGate`,
when the original body holds a gate outside the model's gate set, or when
some two-qudit edge of the body maps through `old.location` outside the
model's coupling graph; otherwise it accepts iff the pair (multi-qudit
count, single-qudit count) of the new body is lexicographically strictly
below that of the original — so ties are rejected and every accepted
non-legality replacement strictly reduces the multi-qudit count or keeps it
equal and strictly reduces the single-qudit count. -/
theorem replaceFilter_spec (model : MModel) (new : MCircuit)
    (old : MOperation) (org : MCircuit) :
    (old.block = none → replaceFilter model new old = true) ∧
    (old.block = some org →
      org.gate_set.any (fun g => decide (g ∉ model.gate_set)) = true →
      replaceFilter model new old = true) ∧
    (old.block = some org →
      (MCircuit.coupling_graph org).any (fun e =>
        ! inGraph model.coupling_graph (old.location.getD e.1 0)
          (old.location.getD e.2 0)) = true →
      replaceFilter model new old = true) ∧
    (old.block = some org →
      org.gate_set.any (fun g => decide (g ∉ model.gate_set)) = false →
      (MCircuit.coupling_graph org).any (fun e =>
        ! inGraph model.coupling_graph (old.location.getD e.1 0)
          (old.location.getD e.2 0)) = false →
      (replaceFilter model new old = true ↔
        (new.mq_count < org.mq_count ∨
          (new.mq_count = org.mq_count ∧ new.sq_count < org.sq_count)))) := by
  refine ⟨?_, ?_, ?_, ?_⟩
  · intro hb
    simp only [replaceFilter, hb]
  · intro hb hng
    simp only [replaceFilter, hb]
    rw [if_pos hng]
  · intro hb hedge
    simp only [replaceFilter, hb]
    by_cases hng : org.gate_set.any (fun g => decide (g ∉ model.gate_set)) =
        true
    · rw [if_pos hng]
    · rw [if_neg hng, if_pos hedge]
  · intro hb hng hcg
    simp only [replaceFilter, hb]
    rw [if_neg (by simp only [hng]; exact Bool.false_ne_true),
      if_neg (by simp only [hcg]; exact Bool.false_ne_true)]
    simp only [decide_eq_true_eq]
    rw [mq_tally_eq org, sq_tally_eq org, mq_tally_eq new, sq_tally_eq new]

theorem compileValidate_unfold (input : CompileInput) (model0 : Option MModel)
    (optimization_level max_synthesis_size : ℤ) (rads : List ℕ)
    (hr : input.radixes? = some rads) :
    compileValidate input model0 optimization_level max_synthesis_size =
      (if rads.all (fun r => decide (r = 2)) = false then
        Except.error CompileErr.valueQubitOnlyInput
      else if (resolvedModel rads model0).num_qudits < rads.length then
        Except.error CompileErr.valueMachineTooSmall
      else if (resolvedModel rads model0).radixes.all
          (fun r => decide (r = 2)) = false then
        Except.error CompileErr.valueQubitOnlyModel
      else if ((resolvedModel rads model0).gate_set.filter
          (fun g => decide (2 ≤ g.num_qudits))).length = 0 ∧
          1 < rads.length then
        Except.error CompileErr.valueNoEntangler
      else if optimization_level < 1 ∨ 4 < optimization_level then
        Except.error CompileErr.valueBadOptLevel
      else if max_synthesis_size < 2 then
        Except.error CompileErr.valueBadSynthSize
      else
        match input with
        | CompileInput.circuit c =>
            if max_synthesis_size < (c.num_qudits : ℤ) ∧
                c.gate_set.any (fun g =>
                  decide (max_synthesis_size < (g.num_qudits : ℤ)) &&
                    ! g.is_measurement) then
              Except.error CompileErr.valueGateTooWide
            else if optimization_level = 4 then
              Except.error CompileErr.notImplementedOptFour
            else Except.ok ()
        | CompileInput.unitary r =>
            if max_synthesis_size < (r.length : ℤ) then
              Except.error CompileErr.valueUnitaryTooBig
            else if optimization_level = 4 then
              Except.error CompileErr.notImplementedOptFour
            else Except.ok ()
        | CompileInput.state r =>
            if max_synthesis_size < (r.length : ℤ) then
              Except.error CompileErr.valueStateTooBig
            else Except.error CompileErr.notImplementedStatePrep
        | CompileInput.other => Except.error CompileErr.typeError) := by
  cases input with
  | circuit c =>
      simp only [CompileInput.radixes?, Option.some.injEq] at hr
      subst hr
      rfl
  | unitary r =>
      simp only [CompileInput.radixes?, Option.some.injEq] at hr
      subst hr
      rfl
  | state r =>
      simp only [CompileInput.radixes?, Option.some.injEq] at hr
      subst hr
      rfl
  | other => simp [CompileInput.radixes?] at hr

/-- C7 (amended): `compile` raises `TypeError` for inputs that are neither a
circuit, a unitary, nor a pure state; it raises a `ValueError` when (a) the
input or the resolved model has a non-qubit radix, (b) the machine model has
fewer qudits than the input, (c) the input circuit contains a
*non-measurement* gate wider than `max_synthesis_size` (the code exempts
`MeasurementPlaceholder` gates, compile.py line 211), or (d) the model has no
multi-qudit gate while the input has more than one qudit.  All of these are
decided by the validation preamble `compileValidate`, before any pass runs.
`hwf` is the data-model invariant that a gate of the circuit is no wider than
the circuit. -/
theorem compile_preamble_errors (input : CompileInput)
    (model0 : Option MModel) (opt mss : ℤ) (rads : List ℕ)
    (hr : input.radixes? = some rads)
    (hwf : ∀ c, input = CompileInput.circuit c →
      ∀ g ∈ c.gate_set, g.num_qudits ≤ c.num_qudits) :
    (compileValidate CompileInput.other model0 opt mss =
      Except.error CompileErr.typeError) ∧
    ((rads.all (fun r => decide (r = 2)) = false ∨
        (resolvedModel rads model0).radixes.all
          (fun r => decide (r = 2)) = false) →
      ∃ e, compileValidate input model0 opt mss = Except.error e ∧
        e.isValueError = true) ∧
    ((resolvedModel rads model0).num_qudits < rads.length →
      ∃ e, compileValidate input model0 opt mss = Except.error e ∧
        e.isValueError = true) ∧
    ((((resolvedModel rads model0).gate_set.filter
        (fun g => decide (2 ≤ g.num_qudits))).length = 0 ∧
        1 < rads.length) →
      ∃ e, compileValidate input model0 opt mss = Except.error e ∧
        e.isValueError = true) ∧
    (∀ c, input = CompileInput.circuit c →
      (∃ g ∈ c.gate_set, mss < (g.num_qudits : ℤ) ∧
        g.is_measurement = false) →
      ∃ e, compileValidate input model0 opt mss = Except.error e ∧
        e.isValueError = true) := by
  refine ⟨rfl, ?_, ?_, ?_, ?_⟩
  · intro ha
    rw [compileValidate_unfold input model0 opt mss rads hr]
    by_cases h1 : rads.all (fun r => decide (r = 2)) = false
    · rw [if_pos h1]
      exact ⟨_, rfl, rfl⟩
    · rw [if_neg h1]
      have hm := ha.resolve_left h1
      by_cases h2 : (resolvedModel rads model0).num_qudits < rads.length
      · rw [if_pos h2]
        exact ⟨_, rfl, rfl⟩
      · rw [if_neg h2, if_pos hm]
        exact ⟨_, rfl, rfl⟩
  · intro hb
    rw [compileValidate_unfold input model0 opt mss rads hr]
    by_cases h1 : rads.all (fun r => decide (r = 2)) = false
    · rw [if_pos h1]
      exact ⟨_, rfl, rfl⟩
    · rw [if_neg h1, if_pos hb]
      exact ⟨_, rfl, rfl⟩
  · intro hd
    rw [compileValidate_unfold input model0 opt mss rads hr]
    by_cases h1 : rads.all (fun r => decide (r = 2)) = false
    · rw [if_pos h1]
      exact ⟨_, rfl, rfl⟩
    · rw [if_neg h1]
      by_cases h2 : (resolvedModel rads model0).num_qudits < rads.length
      · rw [if_pos h2]
        exact ⟨_, rfl, rfl⟩
      · rw [if_neg h2]
        by_cases h3 : (resolvedModel rads model0).radixes.all
            (fun r => decide (r = 2)) = false
        · rw [if_pos h3]
          exact ⟨_, rfl, rfl⟩
        · rw [if_neg h3, if_pos hd]
          exact ⟨_, rfl, rfl⟩
  · intro c hc hg
    obtain ⟨g, hgmem, hgw, hgm⟩ := hg
    have hgn : g.num_qudits ≤ c.num_qudits := hwf c hc g hgmem
    subst hc
    rw [compileValidate_unfold _ model0 opt mss rads hr]
    by_cases h1 : rads.all (fun r => decide (r = 2)) = false
    · rw [if_pos h1]
      exact ⟨_, rfl, rfl⟩
    · rw [if_neg h1]
      by_cases h2 : (resolvedModel rads model0).num_qudits < rads.length
      · rw [if_pos h2]
        exact ⟨_, rfl, rfl⟩
      · rw [if_neg h2]
        by_cases h3 : (resolvedModel rads model0).radixes.all
            (fun r => decide (r = 2)) = false
        · rw [if_pos h3]
          exact ⟨_, rfl, rfl⟩
        · rw [if_neg h3]
          by_cases h4 : ((resolvedModel rads model0).gate_set.filter
              (fun g => decide (2 ≤ g.num_qudits))).length = 0 ∧
              1 < rads.length
          · rw [if_pos h4]
            exact ⟨_, rfl, rfl⟩
          · rw [if_neg h4]
            by_cases h5 : opt < 1 ∨ 4 < opt
            · rw [if_pos h5]
              exact ⟨_, rfl, rfl⟩
            · rw [if_neg h5]
              by_cases h6 : mss < 2
              · rw [if_pos h6]
                exact ⟨_, rfl, rfl⟩
              · rw [if_neg h6]
                dsimp only
                have hwide : mss < (c.num_qudits : ℤ) ∧
                    c.gate_set.any (fun g =>
                      decide (mss < (g.num_qudits : ℤ)) &&
                        ! g.is_measurement) = true := by
                  constructor
                  · have : (g.num_qudits : ℤ) ≤ (c.num_qudits : ℤ) := by
                      exact_mod_cast hgn
                    linarith
                  · rw [List.any_eq_true]
                    exact ⟨g, hgmem, by rw [hgm]; simp [hgw]⟩
                rw [if_pos hwide]
                exact ⟨_, rfl, rfl⟩

/-- C7 counterexample: a circuit whose only gate wider than
`max_synthesis_size` is a `MeasurementPlaceholder` passes the whole preamble
(no `ValueError`), although the input does contain a gate wider than
`max_synthesis_size`. -/
theorem compile_wide_measurement_ok :
    compileValidate (CompileInput.circuit wideMeasCircuit) none 1 3 =
      Except.ok () ∧
    (∃ g ∈ wideMeasCircuit.gate_set, 3 < (g.num_qudits : ℤ)) := by
  constructor
  · rfl
  · exact ⟨measGate, by decide, by decide⟩

theorem leap_freeze_reseeds_only_best_witness :
    ∃ st', evalCandidate freezeCfg 2 freezeSt 7 = Sum.inl st' ∧
      st'.last_prefix_layer = 2 + 1 ∧
      st'.frontier =
        (if maxLayerAllows freezeCfg.max_layer (2 + 1) then
          [(7, 2 + 1), (7, 2 + 1)]
        else []) ∧
      (maxLayerAllows freezeCfg.max_layer (2 + 1) = false →
        st'.frontier = []) ∧
      ∀ p ∈ st'.frontier, p = (7, 2 + 1) :=
  leap_freeze_reseeds_only_best freezeCfg 2 freezeSt 7
    (by norm_num [freezeCfg])
    (by norm_num [checkNewBest, freezeCfg, freezeSt])
    (by norm_num [checkLeapCondition, linregress, freezeCfg, freezeSt])

theorem leap_freeze_safety_witness : (2 : ℤ) ≤ 3 :=
  leap_freeze_safety safetyCfg safetySt safetySt 2 (by decide) rfl
    (LeapReach.refl safetySt) 0 5 3 rfl

theorem leap_best_dist_monotone_witness :
    stepSt.best_dist ≤ (initLeapState stepCfg 0).best_dist :=
  leap_best_dist_monotone stepCfg (initLeapState stepCfg 0) stepSt
    (LeapReach.step (initLeapState stepCfg 0) stepSt stepSt 0
      (by norm_num [leapStep, initLeapState, stepCfg, stepSt, processCands,
        evalCandidate, checkNewBest, checkLeapCondition, linregress, warnStep,
        maxLayerAllows])
      (LeapReach.refl stepSt))

theorem leap_exhausted_returns_best_witness :
    runLeap exhaustedCfg (fun _ => 0) 5 exhaustedSt =
      some (LeapOutcome.exhausted exhaustedSt.best_circ
        exhaustedSt.best_layer exhaustedSt.best_dist) :=
  leap_exhausted_returns_best exhaustedCfg (fun _ => 0) 5 exhaustedSt rfl

theorem leap_second_clause_dead_witness :
    evalCandidate deadCfgA 0 deadStA 4 = Sum.inr (deadStA, 4) ∧
    deadCfgB.cost 4 < deadStB.best_dist :=
  ⟨(leap_second_clause_dead deadCfgA 0 deadStA 4).1 (by norm_num [deadCfgA]),
   (leap_second_clause_dead deadCfgB 0 deadStB 4).2.2
     (by norm_num [deadCfgB]) (by decide)⟩

theorem evalCandidate_psols_bound_witness :
    ∃ st', evalCandidate psolsCfg 0 psolsSt 4 = Sum.inl st' ∧
      st'.psols 0 = trimBucket psolsCfg.partials_per_depth
        (psolsSt.psols 0 ++ [(4, psolsCfg.cost 4)]) ∧
      ∀ l, ((st'.psols l).length : ℤ) ≤ psolsCfg.partials_per_depth :=
  evalCandidate_psols_bound psolsCfg 0 psolsSt 4 (by norm_num [psolsCfg]) rfl
    (by intro l
        by_cases h : l = 0 <;> simp [psolsSt, psolsCfg, h])

theorem replaceFilter_spec_witness :
    replaceFilter wModel newCircuit oldNoneOp = true ∧
    (replaceFilter wModel newCircuit oldOp = true ↔
      (newCircuit.mq_count < orgCircuit.mq_count ∨
        (newCircuit.mq_count = orgCircuit.mq_count ∧
          newCircuit.sq_count < orgCircuit.sq_count))) :=
  ⟨(replaceFilter_spec wModel newCircuit oldNoneOp orgCircuit).1 rfl,
   (replaceFilter_spec wModel newCircuit oldOp orgCircuit).2.2.2 rfl
     (by decide) (by decide)⟩

theorem compile_preamble_errors_witness :
    (compileValidate CompileInput.other none 1 3 =
      Except.error CompileErr.typeError) ∧
    (∃ e, compileValidate (CompileInput.circuit wideCircuit) none 1 3 =
      Except.error e ∧ e.isValueError = true) ∧
    (∃ e, compileValidate (CompileInput.unitary [3]) none 1 3 =
      Except.error e ∧ e.isValueError = true) :=
  ⟨(compile_preamble_errors (CompileInput.circuit wideCircuit) none 1 3
      wideCircuit.radixes rfl
      (by intro c hc
          injection hc with hc
          subst hc
          decide)).1,
   (compile_preamble_errors (CompileInput.circuit wideCircuit) none 1 3
      wideCircuit.radixes rfl
      (by intro c hc
          injection hc with hc
          subst hc
          decide)).2.2.2.2 wideCircuit rfl (by decide),
   (compile_preamble_errors (CompileInput.unitary [3]) none 1 3 [3] rfl
      (fun c hc => by cases hc)).2.1 (Or.inl (by decide))⟩
